import Mathlib

/-!
Shallow embedding of the Bank Management System (src/bank.cpp) and proofs
about its account model, ledger operations and persistence format.

Modelling conventions:
* `double` balances and amounts are modelled as `ℚ` (all source operations on
  balances are `+`, `-` and comparisons, which are exact); the one place where
  the textual formatting of a `double` matters (`operator<<` with the default
  ostream precision of 6 significant digits in `BankAccount::save`) is
  modelled explicitly by `Bank.fmtBalance`.
* `int` account numbers are modelled as `Int` (only compared for equality),
  `size_t` PIN digests as `Nat`.
* `std::hash<std::string>` is implementation-defined; it is modelled by a
  fixed deterministic 64-bit string digest (`Bank.hashPIN`).  Every proof
  below uses only that the digest is a deterministic pure function.
* Exceptions become `Except` / a `thrown` constructor carrying the ledger
  state at the throw point; the "reported" soft failures of the manager
  (account not found, PIN mismatch) become their own constructors, since the
  source prints a message and aborts without raising.
* `BankManagement::authenticate` reads the candidate PIN from `std::cin`;
  the candidate is passed to each operation as an explicit argument.
* A persisted file is modelled as the list of its lines, each line either a
  well-formed record (`some r`) or a malformed one (`none`); `quoted` name
  round-tripping and exact integer printing/parsing are absorbed into the
  record representation, while the lossy balance formatting is kept explicit.
-/

namespace Bank

/-- Error kinds raised by the source (`std::invalid_argument` /
`std::runtime_error`), one constructor per distinct `throw` message. -/
inductive BankErr where
  | depositNotPositive
  | withdrawalNotPositive
  | insufficientBalance
  | nameEmpty
  | accountNumberExists
  | transferAccountNotFound
  | sameAccountTransfer
  | pinNotFourDigits
deriving DecidableEq

/-- Model of `std::hash<std::string>` (implementation-defined): a fixed
deterministic digest into 64 bits.  Claims proved below depend only on
determinism of this function, never on particular digest values. -/
def hashPIN (pin : String) : Nat :=
  pin.data.foldl (fun h c => (h * 31 + c.toNat) % 2 ^ 64) 5381

/-- One bank account, mirroring the private state of class `BankAccount`:
`name`, `accountNum`, `balance`, `pinHash`. -/
structure BankAccount where
  name : String
  accountNum : Int
  balance : ℚ
  pinHash : Nat
deriving DecidableEq

instance : Inhabited BankAccount := ⟨⟨"", 0, 0, 0⟩⟩

/-- `BankAccount::verifyPIN`: recompute the digest of the candidate and
compare with the stored digest. -/
def BankAccount.verifyPIN (acc : BankAccount) (pin : String) : Bool :=
  acc.pinHash == hashPIN pin

/-- `BankAccount::deposit`: throws if `amount <= 0`, else adds. -/
def BankAccount.deposit (acc : BankAccount) (amount : ℚ) :
    Except BankErr BankAccount :=
  if amount ≤ 0 then .error .depositNotPositive
  else .ok { acc with balance := acc.balance + amount }

/-- `BankAccount::withdraw`: throws if `amount <= 0`, throws if
`balance < amount`, else subtracts. -/
def BankAccount.withdraw (acc : BankAccount) (amount : ℚ) :
    Except BankErr BankAccount :=
  if amount ≤ 0 then .error .withdrawalNotPositive
  else if acc.balance < amount then .error .insufficientBalance
  else .ok { acc with balance := acc.balance - amount }

/-- `BankAccount::updateName`: throws on the empty string, else replaces. -/
def BankAccount.updateName (acc : BankAccount) (newName : String) :
    Except BankErr BankAccount :=
  if newName = "" then .error .nameEmpty
  else .ok { acc with name := newName }

/-- Result of a `BankManagement` operation.  Every constructor carries the
vector of accounts as it is when the operation returns (or when the
exception leaves the member function). -/
inductive LRes where
  | ok (accounts : List BankAccount)
  | notFound (accounts : List BankAccount)
  | authFailed (accounts : List BankAccount)
  | thrown (e : BankErr) (accounts : List BankAccount)
deriving DecidableEq

/-- The account vector carried by a result, in every outcome. -/
def LRes.accounts : LRes → List BankAccount
  | .ok l => l
  | .notFound l => l
  | .authFailed l => l
  | .thrown _ l => l

/-- `BankManagement::authenticate`, with the candidate PIN (read from
`std::cin` in the source) passed explicitly. -/
def authenticate (acc : BankAccount) (pin : String) : Bool :=
  acc.verifyPIN pin

/-- `BankManagement::findAccount`: `ranges::find_if`, i.e. the index of the
first account whose number matches, if any. -/
def findAccount : List BankAccount → Int → Option Nat
  | [], _ => none
  | acc :: rest, n =>
      if acc.accountNum = n then some 0
      else (findAccount rest n).map (· + 1)

/-- Dereference of the iterator/reference produced by a successful
`findAccount`: the element at index `i` (the index is always in bounds when
it comes out of `findAccount`; the default is never reached). -/
def refAt (accounts : List BankAccount) (i : Nat) : BankAccount :=
  accounts.getD i default

/-- `BankManagement::addAccount`: throws on a duplicate account number, else
constructs the account (hashing the PIN) and appends it.  No validation of
name, number, balance or PIN shape happens here or in the `BankAccount`
constructor. -/
def addAccount (accounts : List BankAccount) (name : String)
    (accountNum : Int) (balance : ℚ) (pin : String) : LRes :=
  if accounts.any (fun acc => acc.accountNum == accountNum) then
    .thrown .accountNumberExists accounts
  else
    .ok (accounts ++ [{ name := name, accountNum := accountNum,
                        balance := balance, pinHash := hashPIN pin }])

/-- `BankManagement::deposit`: find, report not-found, authenticate, then
`BankAccount::deposit` on the referenced element (index `i` is always in
bounds when `findAccount` succeeds; `getD` models the dereference). -/
def deposit (accounts : List BankAccount) (accNum : Int) (pin : String)
    (amount : ℚ) : LRes :=
  match findAccount accounts accNum with
  | none => .notFound accounts
  | some i =>
      let acc := refAt accounts i
      if ¬ authenticate acc pin then .authFailed accounts
      else
        match acc.deposit amount with
        | .error e => .thrown e accounts
        | .ok acc2 => .ok (accounts.set i acc2)

/-- `BankManagement::withdraw`: same gating as deposit, then
`BankAccount::withdraw`. -/
def withdraw (accounts : List BankAccount) (accNum : Int) (pin : String)
    (amount : ℚ) : LRes :=
  match findAccount accounts accNum with
  | none => .notFound accounts
  | some i =>
      let acc := refAt accounts i
      if ¬ authenticate acc pin then .authFailed accounts
      else
        match acc.withdraw amount with
        | .error e => .thrown e accounts
        | .ok acc2 => .ok (accounts.set i acc2)

/-- `BankManagement::transfer`: find both sides (throwing if either is
missing), throw on a same-account transfer, authenticate the source, then
withdraw from the source and deposit into the destination.  The destination
reference is into the vector already holding the debited source, exactly as
the C++ references alias the vector elements. -/
def transfer (accounts : List BankAccount) (fromAcc toAcc : Int)
    (pin : String) (amount : ℚ) : LRes :=
  match findAccount accounts fromAcc, findAccount accounts toAcc with
  | some i, some j =>
      if fromAcc = toAcc then .thrown .sameAccountTransfer accounts
      else if ¬ authenticate (refAt accounts i) pin then
        .authFailed accounts
      else
        match (refAt accounts i).withdraw amount with
        | .error e => .thrown e accounts
        | .ok from2 =>
            let accounts2 := accounts.set i from2
            match (refAt accounts2 j).deposit amount with
            | .error e => .thrown e accounts2
            | .ok to2 => .ok (accounts2.set j to2)
  | _, _ => .thrown .transferAccountNotFound accounts

/-- `BankManagement::updateName`: find, report not-found, authenticate, then
`BankAccount::updateName`. -/
def updateName (accounts : List BankAccount) (accNum : Int) (pin : String)
    (newName : String) : LRes :=
  match findAccount accounts accNum with
  | none => .notFound accounts
  | some i =>
      let acc := refAt accounts i
      if ¬ authenticate acc pin then .authFailed accounts
      else
        match acc.updateName newName with
        | .error e => .thrown e accounts
        | .ok acc2 => .ok (accounts.set i acc2)

/-- `BankManagement::closeAccount`: find the first match, report not-found,
authenticate, then erase that element (order of the rest preserved). -/
def closeAccount (accounts : List BankAccount) (accNum : Int)
    (pin : String) : LRes :=
  match findAccount accounts accNum with
  | none => .notFound accounts
  | some i =>
      if ¬ authenticate (refAt accounts i) pin then
        .authFailed accounts
      else .ok (accounts.eraseIdx i)

/-- `BankManagement::sortAccountsByBalance` calls `std::ranges::sort` with
the projection `&BankAccount::getBalance`.  `std::ranges::sort` is not
deterministic from the source: the C++ standard specifies only that the
result is some permutation of the input that is sorted by the projected
key, and in particular leaves the relative order of equal keys unspecified
(it is `std::stable_sort` that promises stability).  The operation is
therefore modelled as this input/output relation. -/
def sortAccountsByBalance (accounts result : List BankAccount) : Prop :=
  result.Perm accounts ∧
  result.Pairwise (fun a b => a.balance ≤ b.balance)

/-- A reordering is stable when, balance by balance, the accounts of that
balance appear in the same relative order as in the input. -/
def stableReorder (accounts result : List BankAccount) : Prop :=
  ∀ b : ℚ,
    result.filter (fun acc => acc.balance == b) =
      accounts.filter (fun acc => acc.balance == b)

/-- The `CreateAccount` branch of `main`: the looping input helpers only
hand over a value meeting their bounds (modelled as hypotheses where
relevant), after which `main` itself rejects a PIN that is not exactly four
ASCII digits before calling `addAccount`. -/
def menuCreateAccount (accounts : List BankAccount) (name : String)
    (accountNum : Int) (balance : ℚ) (pin : String) : LRes :=
  if ¬ (pin.length == 4 && pin.data.all Char.isDigit) then
    .thrown .pinNotFourDigits accounts
  else addAccount accounts name accountNum balance pin

/-- One well-formed line of the persisted file:
`accountNum balance pinHash quoted(name)`.  The integer fields print and
parse exactly; `std::quoted` escapes and unescapes the name exactly; the
balance field of a record built by `save` already went through the lossy
default formatting (see `fmtBalance`). -/
structure FileRecord where
  accountNum : Int
  balance : ℚ
  pinHash : Nat
  name : String
deriving DecidableEq

/-- Powers of ten with an integer exponent, as rationals. -/
def pow10 (e : Int) : ℚ :=
  if 0 ≤ e then (10 : ℚ) ^ e.toNat else ((1 : ℚ) / 10) ^ (-e).toNat

/-- Fuel-bounded floor-log₁₀ counter for `1 ≤ x`. -/
def log10Up : Nat → ℚ → Nat
  | 0, _ => 0
  | fuel + 1, x => if x < 10 then 0 else log10Up fuel (x / 10) + 1

/-- Fuel-bounded counter of leading zeros for `0 < x < 1`: the least `k ≥ 1`
with `10 ^ (-k) ≤ x`. -/
def log10Down : Nat → ℚ → Nat
  | 0, _ => 0
  | fuel + 1, x => if 1 ≤ x then 0 else log10Down fuel (x * 10) + 1

/-- Floor of log₁₀ for a positive rational.  The fuel 400 covers every
magnitude a C++ `double` can hold (`10 ^ -324` up to `10 ^ 309`), which is
the type the source stores balances in. -/
def qlog10 (x : ℚ) : Int :=
  if 1 ≤ x then (log10Up 400 x : Int) else - (log10Down 400 x : Int)

/-- Value denoted by `out << balance` in `BankAccount::save`: the default
ostream state prints a `double` with 6 significant decimal digits
(`defaultfloat`, precision 6), i.e. the balance rounded to 6 significant
digits.  Ties round half-up here; a correctly rounded printf rounds ties of
the underlying binary value to even, a difference immaterial to every result
proved below. -/
def fmtBalance (q : ℚ) : ℚ :=
  if q = 0 then 0
  else
    let x := |q|
    let e := qlog10 x
    let m := round (x * pow10 (5 - e))
    (if q < 0 then -1 else 1) * (m : ℚ) * pow10 (e - 5)

/-- `BankAccount::save`: one line `accountNum balance pinHash quoted(name)`,
the balance going through the default-precision formatting. -/
def saveAccount (acc : BankAccount) : FileRecord :=
  { accountNum := acc.accountNum, balance := fmtBalance acc.balance,
    pinHash := acc.pinHash, name := acc.name }

/-- `BankManagement::saveToFile`: every account, one line each, in current
collection order. -/
def saveToFile (accounts : List BankAccount) : List FileRecord :=
  accounts.map saveAccount

/-- `BankAccount::load` applied to a well-formed line. -/
def loadAccount (r : FileRecord) : BankAccount :=
  { name := r.name, accountNum := r.accountNum, balance := r.balance,
    pinHash := r.pinHash }

/-- The read loop of `BankManagement::loadFromFile`: keep loading records
until a line fails to parse (or the file ends); the first malformed line
ends the data. -/
def readRecords : List (Option FileRecord) → List BankAccount
  | [] => []
  | none :: _ => []
  | some r :: rest => loadAccount r :: readRecords rest

/-- `BankManagement::loadFromFile`: if the path does not exist, return at
once (the member vector keeps its current contents); otherwise clear the
vector and read records until the first parse failure. -/
def loadFromFile (fileExists : Bool) (content : List (Option FileRecord))
    (accounts : List BankAccount) : List BankAccount :=
  if fileExists then readRecords content else accounts

/-- Every balance in the ledger is nonnegative. -/
def balancesNonneg (accounts : List BankAccount) : Prop :=
  ∀ acc ∈ accounts, 0 ≤ acc.balance

/-- No two accounts of the ledger share an account number. -/
def numsUnique (accounts : List BankAccount) : Prop :=
  (accounts.map BankAccount.accountNum).Nodup

/-! ### Helper lemmas -/

lemma findAccount_append_first (l₁ l₂ : List BankAccount) (a : BankAccount)
    (n : Int) (h₁ : ∀ x ∈ l₁, ¬ x.accountNum = n) (h₂ : a.accountNum = n) :
    findAccount (l₁ ++ a :: l₂) n = some l₁.length := by
  induction l₁ with
  | nil => simp [findAccount, h₂]
  | cons x xs ih =>
      have hx : ¬ x.accountNum = n := h₁ x (by simp)
      have := ih (fun y hy => h₁ y (by simp [hy]))
      simp [findAccount, hx, this]

lemma findAccount_some (accounts : List BankAccount) (n : Int) (i : Nat)
    (h : findAccount accounts n = some i) :
    i < accounts.length ∧ (refAt accounts i).accountNum = n := by
  induction accounts generalizing i with
  | nil => simp [findAccount] at h
  | cons x xs ih =>
      by_cases hx : x.accountNum = n
      · simp only [findAccount, if_pos hx, Option.some.injEq] at h
        subst h
        simpa [refAt] using hx
      · simp only [findAccount, if_neg hx, Option.map_eq_some'] at h
        obtain ⟨j, hj, rfl⟩ := h
        obtain ⟨hlt, hnum⟩ := ih j hj
        exact ⟨by simpa using hlt, by simpa [refAt] using hnum⟩

lemma getD_append_mid (l₁ l₂ : List BankAccount) (a d : BankAccount) :
    (l₁ ++ a :: l₂).getD l₁.length d = a := by
  induction l₁ with
  | nil => simp
  | cons x xs ih => simpa using ih

lemma refAt_append_mid (l₁ l₂ : List BankAccount) (a : BankAccount) :
    refAt (l₁ ++ a :: l₂) l₁.length = a :=
  getD_append_mid l₁ l₂ a default

lemma set_append_mid (l₁ l₂ : List BankAccount) (a b : BankAccount) :
    (l₁ ++ a :: l₂).set l₁.length b = l₁ ++ b :: l₂ := by
  induction l₁ with
  | nil => simp
  | cons x xs ih => simp [ih]

lemma eraseIdx_append_mid (l₁ l₂ : List BankAccount) (a : BankAccount) :
    (l₁ ++ a :: l₂).eraseIdx l₁.length = l₁ ++ l₂ := by
  induction l₁ with
  | nil => simp
  | cons x xs ih => simpa using ih

lemma round_eq_of {x : ℚ} {n : ℤ} (h₁ : (n : ℚ) ≤ x + 1 / 2)
    (h₂ : x + 1 / 2 < (n : ℚ) + 1) : round x = n := by
  rw [round_eq]
  exact Int.floor_eq_iff.mpr ⟨h₁, by exact_mod_cast h₂⟩

lemma log10Up_spec : ∀ (fuel k : Nat) (x : ℚ), k < fuel →
    (10 : ℚ) ^ k ≤ x → x < (10 : ℚ) ^ (k + 1) → log10Up fuel x = k := by
  intro fuel
  induction fuel with
  | zero => intro k x hk _ _; omega
  | succ fuel ih =>
      intro k x hk h1 h2
      match k with
      | 0 =>
          have : x < 10 := by simpa using h2
          simp [log10Up, this]
      | k + 1 =>
          have h10 : (10 : ℚ) ≤ x :=
            le_trans (by
              calc (10 : ℚ) = 10 ^ 1 := (pow_one _).symm
              _ ≤ 10 ^ (k + 1) := by
                  exact pow_le_pow_right₀ (by norm_num) (by omega)) h1
          have hnlt : ¬ x < 10 := not_lt.mpr h10
          have hrec : log10Up fuel (x / 10) = k := by
            refine ih k (x / 10) (by omega) ?_ ?_
            · rw [le_div_iff₀ (by norm_num : (0:ℚ) < 10)]
              calc (10 : ℚ) ^ k * 10 = 10 ^ (k + 1) := by ring
              _ ≤ x := h1
            · rw [div_lt_iff₀ (by norm_num : (0:ℚ) < 10)]
              calc x < 10 ^ (k + 1 + 1) := h2
              _ = 10 ^ (k + 1) * 10 := by ring
          simp [log10Up, hnlt, hrec]

lemma log10Down_spec : ∀ (fuel k : Nat) (x : ℚ), k < fuel →
    1 ≤ x * (10 : ℚ) ^ k → (∀ j < k, x * (10 : ℚ) ^ j < 1) →
    log10Down fuel x = k := by
  intro fuel
  induction fuel with
  | zero => intro k x hk _ _; omega
  | succ fuel ih =>
      intro k x hk h1 h2
      match k with
      | 0 =>
          have : (1 : ℚ) ≤ x := by simpa using h1
          simp [log10Down, this]
      | k + 1 =>
          have hlt : x < 1 := by simpa using h2 0 (by omega)
          have hnlt : ¬ (1 : ℚ) ≤ x := not_le.mpr hlt
          have hrec : log10Down fuel (x * 10) = k := by
            refine ih k (x * 10) (by omega) ?_ ?_
            · calc (1 : ℚ) ≤ x * 10 ^ (k + 1) := h1
              _ = x * 10 * 10 ^ k := by ring
            · intro j hj
              calc x * 10 * 10 ^ j = x * 10 ^ (j + 1) := by ring
              _ < 1 := h2 (j + 1) (by omega)
          simp [log10Down, hnlt, hrec]

lemma pow10_ofNat (k : Nat) : pow10 (k : Int) = (10 : ℚ) ^ k := by
  simp [pow10]

lemma pow10_negOfNat (k : Nat) : pow10 (-(k : Int)) = ((1 : ℚ) / 10) ^ k := by
  rcases Nat.eq_zero_or_pos k with hk | hk
  · subst hk; simp [pow10]
  · have : ¬ (0 : Int) ≤ -(k : Int) := by omega
    simp [pow10, this]

lemma qlog10_eq_ofNat (x : ℚ) (k : Nat) (hk : k < 400)
    (h1 : (10 : ℚ) ^ k ≤ x) (h2 : x < (10 : ℚ) ^ (k + 1)) :
    qlog10 x = (k : Int) := by
  have hx1 : (1 : ℚ) ≤ x := le_trans (one_le_pow₀ (by norm_num)) h1
  simp [qlog10, hx1, log10Up_spec 400 k x hk h1 h2]

lemma deposit_ok {acc : BankAccount} {amount : ℚ} {acc2 : BankAccount}
    (h : acc.deposit amount = .ok acc2) :
    0 < amount ∧ acc2 = { acc with balance := acc.balance + amount } := by
  by_cases hle : amount ≤ 0
  · simp [BankAccount.deposit, hle] at h
  · simp only [BankAccount.deposit, if_neg hle, Except.ok.injEq] at h
    exact ⟨not_le.mp hle, h.symm⟩

lemma deposit_ok_of_pos (acc : BankAccount) (amount : ℚ) (h : 0 < amount) :
    acc.deposit amount = .ok { acc with balance := acc.balance + amount } := by
  simp [BankAccount.deposit, not_le.mpr h]

lemma withdraw_ok {acc : BankAccount} {amount : ℚ} {acc2 : BankAccount}
    (h : acc.withdraw amount = .ok acc2) :
    0 < amount ∧ amount ≤ acc.balance ∧
      acc2 = { acc with balance := acc.balance - amount } := by
  by_cases hle : amount ≤ 0
  · simp [BankAccount.withdraw, hle] at h
  · by_cases hlt : acc.balance < amount
    · simp [BankAccount.withdraw, hle, hlt] at h
    · simp only [BankAccount.withdraw, if_neg hle, if_neg hlt,
        Except.ok.injEq] at h
      exact ⟨not_le.mp hle, not_lt.mp hlt, h.symm⟩

lemma withdraw_ok_of {acc : BankAccount} {amount : ℚ} (h1 : 0 < amount)
    (h2 : amount ≤ acc.balance) :
    acc.withdraw amount = .ok { acc with balance := acc.balance - amount } := by
  simp [BankAccount.withdraw, not_le.mpr h1, not_lt.mpr h2]

lemma updateName_ok {acc : BankAccount} {newName : String} {acc2 : BankAccount}
    (h : acc.updateName newName = .ok acc2) :
    acc2 = { acc with name := newName } := by
  by_cases hn : newName = ""
  · simp [BankAccount.updateName, hn] at h
  · simp only [BankAccount.updateName, if_neg hn, Except.ok.injEq] at h
    exact h.symm

lemma balancesNonneg_refAt {accounts : List BankAccount} {i : Nat}
    (h : balancesNonneg accounts) (hi : i < accounts.length) :
    0 ≤ (refAt accounts i).balance := by
  rw [refAt, List.getD_eq_getElem _ _ hi]
  exact h _ (List.getElem_mem hi)

lemma balancesNonneg_set {accounts : List BankAccount} {i : Nat}
    {acc : BankAccount} (h : balancesNonneg accounts) (ha : 0 ≤ acc.balance) :
    balancesNonneg (accounts.set i acc) := by
  intro x hx
  rcases List.mem_or_eq_of_mem_set hx with hx' | rfl
  · exact h x hx'
  · exact ha

lemma map_accountNum_set (accounts : List BankAccount) (i : Nat)
    (acc2 : BankAccount)
    (h : acc2.accountNum = (refAt accounts i).accountNum) :
    (accounts.set i acc2).map BankAccount.accountNum =
      accounts.map BankAccount.accountNum := by
  induction accounts generalizing i with
  | nil => simp
  | cons x xs ih =>
      match i with
      | 0 => simp_all [refAt]
      | i + 1 =>
          simp only [refAt, List.getD_cons_succ] at h
          simp [ih i (by simpa [refAt] using h)]

lemma refAt_set_self {accounts : List BankAccount} {i : Nat} (x : BankAccount)
    (hi : i < accounts.length) : refAt (accounts.set i x) i = x := by
  rw [refAt, List.getD_eq_getElem _ _ (by simpa using hi)]
  simp

lemma refAt_set_ne {accounts : List BankAccount} {i j : Nat} (x : BankAccount)
    (hij : i ≠ j) : refAt (accounts.set i x) j = refAt accounts j := by
  by_cases hj : j < accounts.length
  · rw [refAt, refAt, List.getD_eq_getElem _ _ (by simpa using hj),
      List.getD_eq_getElem _ _ hj]
    exact List.getElem_set_ne hij (by simpa using hj)
  · rw [refAt, refAt, List.getD_eq_default _ _ (by simpa using not_lt.mp hj),
      List.getD_eq_default _ _ (not_lt.mp hj)]

/-! Branch-unfolding lemmas for the manager operations: each one rewrites an
operation to the branch selected by the stated conditions. -/

lemma deposit_eq_notFound {accounts : List BankAccount} {n : Int}
    (pin : String) (amount : ℚ) (h : findAccount accounts n = none) :
    deposit accounts n pin amount = .notFound accounts := by
  simp [deposit, h]

lemma deposit_eq_authFailed {accounts : List BankAccount} {n : Int}
    {pin : String} (amount : ℚ) {i : Nat}
    (h : findAccount accounts n = some i)
    (ha : authenticate (refAt accounts i) pin = false) :
    deposit accounts n pin amount = .authFailed accounts := by
  simp [deposit, h, ha]

lemma deposit_eq_found {accounts : List BankAccount} {n : Int}
    {pin : String} (amount : ℚ) {i : Nat}
    (h : findAccount accounts n = some i)
    (ha : authenticate (refAt accounts i) pin = true) :
    deposit accounts n pin amount =
      match (refAt accounts i).deposit amount with
      | .error e => .thrown e accounts
      | .ok acc2 => .ok (accounts.set i acc2) := by
  simp [deposit, h, ha]

lemma withdraw_eq_notFound {accounts : List BankAccount} {n : Int}
    (pin : String) (amount : ℚ) (h : findAccount accounts n = none) :
    withdraw accounts n pin amount = .notFound accounts := by
  simp [withdraw, h]

lemma withdraw_eq_authFailed {accounts : List BankAccount} {n : Int}
    {pin : String} (amount : ℚ) {i : Nat}
    (h : findAccount accounts n = some i)
    (ha : authenticate (refAt accounts i) pin = false) :
    withdraw accounts n pin amount = .authFailed accounts := by
  simp [withdraw, h, ha]

lemma withdraw_eq_found {accounts : List BankAccount} {n : Int}
    {pin : String} (amount : ℚ) {i : Nat}
    (h : findAccount accounts n = some i)
    (ha : authenticate (refAt accounts i) pin = true) :
    withdraw accounts n pin amount =
      match (refAt accounts i).withdraw amount with
      | .error e => .thrown e accounts
      | .ok acc2 => .ok (accounts.set i acc2) := by
  simp [withdraw, h, ha]

lemma updateName_eq_notFound {accounts : List BankAccount} {n : Int}
    (pin newName : String) (h : findAccount accounts n = none) :
    updateName accounts n pin newName = .notFound accounts := by
  simp [updateName, h]

lemma updateName_eq_authFailed {accounts : List BankAccount} {n : Int}
    {pin : String} (newName : String) {i : Nat}
    (h : findAccount accounts n = some i)
    (ha : authenticate (refAt accounts i) pin = false) :
    updateName accounts n pin newName = .authFailed accounts := by
  simp [updateName, h, ha]

lemma updateName_eq_found {accounts : List BankAccount} {n : Int}
    {pin : String} (newName : String) {i : Nat}
    (h : findAccount accounts n = some i)
    (ha : authenticate (refAt accounts i) pin = true) :
    updateName accounts n pin newName =
      match (refAt accounts i).updateName newName with
      | .error e => .thrown e accounts
      | .ok acc2 => .ok (accounts.set i acc2) := by
  simp [updateName, h, ha]

lemma closeAccount_eq_notFound {accounts : List BankAccount} {n : Int}
    (pin : String) (h : findAccount accounts n = none) :
    closeAccount accounts n pin = .notFound accounts := by
  simp [closeAccount, h]

lemma closeAccount_eq_authFailed {accounts : List BankAccount} {n : Int}
    {pin : String} {i : Nat} (h : findAccount accounts n = some i)
    (ha : authenticate (refAt accounts i) pin = false) :
    closeAccount accounts n pin = .authFailed accounts := by
  simp [closeAccount, h, ha]

lemma closeAccount_eq_found {accounts : List BankAccount} {n : Int}
    {pin : String} {i : Nat} (h : findAccount accounts n = some i)
    (ha : authenticate (refAt accounts i) pin = true) :
    closeAccount accounts n pin = .ok (accounts.eraseIdx i) := by
  simp [closeAccount, h, ha]

lemma transfer_eq_notFound {accounts : List BankAccount} {na nb : Int}
    (pin : String) (amount : ℚ)
    (h : findAccount accounts na = none ∨ findAccount accounts nb = none) :
    transfer accounts na nb pin amount =
      .thrown .transferAccountNotFound accounts := by
  rcases h with h | h <;>
    rcases hb : findAccount accounts nb with _ | j <;>
    rcases ha : findAccount accounts na with _ | i <;>
    simp_all [transfer]

lemma transfer_eq_same {accounts : List BankAccount} {n : Int}
    (pin : String) (amount : ℚ) {i : Nat}
    (h : findAccount accounts n = some i) :
    transfer accounts n n pin amount =
      .thrown .sameAccountTransfer accounts := by
  simp [transfer, h]

lemma transfer_eq_authFailed {accounts : List BankAccount} {na nb : Int}
    {pin : String} (amount : ℚ) {i j : Nat}
    (hi : findAccount accounts na = some i)
    (hj : findAccount accounts nb = some j) (hne : ¬ na = nb)
    (ha : authenticate (refAt accounts i) pin = false) :
    transfer accounts na nb pin amount = .authFailed accounts := by
  simp [transfer, hi, hj, hne, ha]

lemma transfer_eq_found {accounts : List BankAccount} {na nb : Int}
    {pin : String} (amount : ℚ) {i j : Nat}
    (hi : findAccount accounts na = some i)
    (hj : findAccount accounts nb = some j) (hne : ¬ na = nb)
    (ha : authenticate (refAt accounts i) pin = true) :
    transfer accounts na nb pin amount =
      match (refAt accounts i).withdraw amount with
      | .error e => .thrown e accounts
      | .ok from2 =>
          match (refAt (accounts.set i from2) j).deposit amount with
          | .error e => .thrown e (accounts.set i from2)
          | .ok to2 => .ok ((accounts.set i from2).set j to2) := by
  simp [transfer, hi, hj, hne, ha]

lemma fmtBalance_of_pos {q : ℚ} (e : Int) (m : ℤ) (h0 : 0 < q)
    (he : qlog10 q = e) (hm : round (q * pow10 (5 - e)) = m) :
    fmtBalance q = (m : ℚ) * pow10 (e - 5) := by
  have hne : q ≠ 0 := ne_of_gt h0
  have habs : |q| = q := abs_of_pos h0
  have hnlt : ¬ q < 0 := not_lt.mpr (le_of_lt h0)
  simp only [fmtBalance, if_neg hne, habs, he, hm, if_neg hnlt, one_mul]

/-! ### Claims -/

/-- C9, counterexample: `loadFromFile` on a non-existent path returns with
the member vector untouched, so a ledger that already held an account keeps
it — the resulting ledger is not empty, contrary to the claim that it is
empty for any prior ledger state. -/
theorem c9_load_missing_counterexample :
    loadFromFile false [] [⟨"Alice", 1001, 100, 7⟩] =
      [⟨"Alice", 1001, 100, 7⟩] ∧
    ([⟨"Alice", 1001, 100, 7⟩] : List BankAccount) ≠ [] := by
  exact ⟨by simp [loadFromFile], by simp⟩

/-- C9, amended: `loadFromFile` on a non-existent path raises no error and
leaves the ledger exactly as it was (so it is empty after the call only in
the first-run situation, where the ledger was empty before the call). -/
theorem c9_load_missing_amended (content : List (Option FileRecord))
    (accounts : List BankAccount) :
    loadFromFile false content accounts = accounts ∧
    loadFromFile false content [] = [] := by
  exact ⟨by simp [loadFromFile], by simp [loadFromFile]⟩

/-- C7, counterexample: `addAccount` (and the `BankAccount` constructor it
calls) performs none of the claimed validation: an empty name, a negative
account number, a negative initial balance and a non-4-digit PIN are all
accepted and the account is appended. -/
theorem c7_validation_counterexample :
    addAccount [] "" (-5) (-3) "x" =
      .ok [{ name := "", accountNum := -5, balance := -3,
             pinHash := hashPIN "x" }] := by
  simp [addAccount]

/-- C7, amended: the `Account` layer performs no input validation —
`addAccount` appends whatever it is given whenever the account number is
fresh; the listed checks live in the interactive driver (`main`), which
rejects a PIN that is not exactly 4 digits before calling `addAccount`
(and whose input loops refuse an empty name, a non-positive account number
and a negative balance before that). -/
theorem c7_validation_amended (accounts : List BankAccount) (name : String)
    (accountNum : Int) (balance : ℚ) (pin : String) :
    ((∀ acc ∈ accounts, ¬ acc.accountNum = accountNum) →
      addAccount accounts name accountNum balance pin =
        .ok (accounts ++ [{ name := name, accountNum := accountNum,
                            balance := balance, pinHash := hashPIN pin }])) ∧
    ((pin.length == 4 && pin.data.all Char.isDigit) = false →
      menuCreateAccount accounts name accountNum balance pin =
        .thrown .pinNotFourDigits accounts) ∧
    ((pin.length == 4 && pin.data.all Char.isDigit) = true →
      menuCreateAccount accounts name accountNum balance pin =
        addAccount accounts name accountNum balance pin) := by
  refine ⟨fun h => ?_, fun h => ?_, fun h => ?_⟩
  · have hany : accounts.any (fun acc => acc.accountNum == accountNum) = false := by
      simp only [List.any_eq_false, beq_iff_eq]
      exact fun x hx => h x hx
    simp [addAccount, hany]
  · simp [menuCreateAccount, h]
  · simp [menuCreateAccount, h]

/-- C7, witness for the amended theorem at concrete inputs: with a fresh
number every input is accepted by `addAccount`, and the driver path rejects
the 3-character PIN "123". -/
theorem c7_validation_witness :
    addAccount [] "Bob" 7 2 "123" =
      .ok [{ name := "Bob", accountNum := 7, balance := 2,
             pinHash := hashPIN "123" }] ∧
    menuCreateAccount [] "Bob" 7 2 "123" = .thrown .pinNotFourDigits [] := by
  refine ⟨(c7_validation_amended [] "Bob" 7 2 "123").1 (by simp),
        (c7_validation_amended [] "Bob" 7 2 "123").2.1 (by decide)⟩

/-- C8: a same-account transfer on any existing account throws
`SameAccountTransfer` (the source checks not-found first, so the account
must exist) and the account vector is returned unmodified. -/
theorem c8_same_transfer (accounts : List BankAccount) (n : Int)
    (pin : String) (amount : ℚ) (i : Nat)
    (h : findAccount accounts n = some i) :
    transfer accounts n n pin amount =
      .thrown .sameAccountTransfer accounts := by
  simp [transfer, h]

/-- C8, witness: same-account transfer on a concrete one-account ledger,
with a wrong PIN and an amount exceeding the funds, still throws
`SameAccountTransfer` and changes nothing. -/
theorem c8_same_transfer_witness :
    findAccount [⟨"Alice", 1001, 100, hashPIN "1234"⟩] 1001 = some 0 ∧
    transfer [⟨"Alice", 1001, 100, hashPIN "1234"⟩] 1001 1001 "9999" 500 =
      .thrown .sameAccountTransfer [⟨"Alice", 1001, 100, hashPIN "1234"⟩] := by
  have h : findAccount [⟨"Alice", 1001, 100, hashPIN "1234"⟩] 1001 = some 0 := by
    simp [findAccount]
  exact ⟨h, c8_same_transfer _ 1001 "9999" 500 0 h⟩

/-- C2, counterexample: `loadFromFile` performs no validation, so a file
record with a negative balance puts an account with a negative balance into
the ledger — the claimed invariant does not survive `loadFromFile`. -/
theorem c2_nonneg_counterexample :
    loadFromFile true [some ⟨1, -5, 7, "Eve"⟩] [] =
      [{ name := "Eve", accountNum := 1, balance := -5, pinHash := 7 }] ∧
    ¬ balancesNonneg (loadFromFile true [some ⟨1, -5, 7, "Eve"⟩] []) := by
  have hload : loadFromFile true [some ⟨1, -5, 7, "Eve"⟩] [] =
      [{ name := "Eve", accountNum := 1, balance := -5, pinHash := 7 }] := by
    simp [loadFromFile, readRecords, loadAccount]
  refine ⟨hload, ?_⟩
  rw [hload]
  intro hinv
  have := hinv { name := "Eve", accountNum := 1, balance := -5, pinHash := 7 }
    (by simp)
  norm_num at this

/-- C2, amended: every in-memory operation preserves nonnegativity of all
balances — withdraw and transfer reject (throw) rather than clamp, deposit
only adds positive amounts, closing and sorting only remove or reorder —
and `addAccount` preserves it when the supplied initial balance is
nonnegative (it performs no check of its own); `loadFromFile`, however,
validates nothing and can populate the ledger with negative balances. -/
theorem c2_nonneg_amended (accounts : List BankAccount)
    (name newName pin : String) (n nb : Int) (balance amount : ℚ)
    (hinv : balancesNonneg accounts) :
    (0 ≤ balance →
      balancesNonneg (addAccount accounts name n balance pin).accounts) ∧
    balancesNonneg (deposit accounts n pin amount).accounts ∧
    balancesNonneg (withdraw accounts n pin amount).accounts ∧
    balancesNonneg (transfer accounts n nb pin amount).accounts ∧
    balancesNonneg (updateName accounts n pin newName).accounts ∧
    balancesNonneg (closeAccount accounts n pin).accounts ∧
    (∀ result, sortAccountsByBalance accounts result →
      balancesNonneg result) := by
  refine ⟨?_, ?_, ?_, ?_, ?_, ?_, ?_⟩
  · intro hb
    by_cases hany : accounts.any (fun acc => acc.accountNum == n) = true
    · simpa [addAccount, hany, LRes.accounts] using hinv
    · simp only [addAccount, if_neg hany, LRes.accounts]
      intro x hx
      rcases List.mem_append.mp hx with hx' | hx'
      · exact hinv x hx'
      · simp only [List.mem_singleton] at hx'
        subst hx'
        exact hb
  · cases hfa : findAccount accounts n with
    | none => rw [deposit_eq_notFound pin amount hfa]; exact hinv
    | some i =>
        obtain ⟨hi, -⟩ := findAccount_some accounts n i hfa
        cases hauth : authenticate (refAt accounts i) pin with
        | false => rw [deposit_eq_authFailed amount hfa hauth]; exact hinv
        | true =>
            rw [deposit_eq_found amount hfa hauth]
            cases hd : (refAt accounts i).deposit amount with
            | error e => simpa [LRes.accounts] using hinv
            | ok acc2 =>
                obtain ⟨hpos, hrec⟩ := deposit_ok hd
                have hbal : acc2.balance = (refAt accounts i).balance + amount := by
                  rw [hrec]
                have h0 := balancesNonneg_refAt hinv hi
                simpa [LRes.accounts] using
                  balancesNonneg_set (i := i) hinv (by rw [hbal]; linarith)
  · cases hfa : findAccount accounts n with
    | none => rw [withdraw_eq_notFound pin amount hfa]; exact hinv
    | some i =>
        obtain ⟨hi, -⟩ := findAccount_some accounts n i hfa
        cases hauth : authenticate (refAt accounts i) pin with
        | false => rw [withdraw_eq_authFailed amount hfa hauth]; exact hinv
        | true =>
            rw [withdraw_eq_found amount hfa hauth]
            cases hw : (refAt accounts i).withdraw amount with
            | error e => simpa [LRes.accounts] using hinv
            | ok acc2 =>
                obtain ⟨hpos, hle, hrec⟩ := withdraw_ok hw
                have hbal : acc2.balance = (refAt accounts i).balance - amount := by
                  rw [hrec]
                simpa [LRes.accounts] using
                  balancesNonneg_set (i := i) hinv (by rw [hbal]; linarith)
  · cases hfi : findAccount accounts n with
    | none => rw [transfer_eq_notFound pin amount (Or.inl hfi)]; exact hinv
    | some i =>
        cases hfj : findAccount accounts nb with
        | none => rw [transfer_eq_notFound pin amount (Or.inr hfj)]; exact hinv
        | some j =>
            obtain ⟨hi, -⟩ := findAccount_some accounts n i hfi
            obtain ⟨hj, -⟩ := findAccount_some accounts nb j hfj
            by_cases heq : n = nb
            · subst heq
              rw [transfer_eq_same pin amount hfi]; exact hinv
            · cases hauth : authenticate (refAt accounts i) pin with
              | false =>
                  rw [transfer_eq_authFailed amount hfi hfj heq hauth]
                  exact hinv
              | true =>
                  rw [transfer_eq_found amount hfi hfj heq hauth]
                  cases hw : (refAt accounts i).withdraw amount with
                  | error e => simpa [LRes.accounts] using hinv
                  | ok from2 =>
                      obtain ⟨hpos, hle, hrec1⟩ := withdraw_ok hw
                      have hbal1 : from2.balance =
                          (refAt accounts i).balance - amount := by rw [hrec1]
                      have h0i := balancesNonneg_refAt hinv hi
                      have hinv2 : balancesNonneg (accounts.set i from2) :=
                        balancesNonneg_set hinv (by rw [hbal1]; linarith)
                      have hj2 : j < (accounts.set i from2).length := by
                        simpa using hj
                      cases hd : (refAt (accounts.set i from2) j).deposit
                          amount with
                      | error e => simpa [LRes.accounts, hd] using hinv2
                      | ok to2 =>
                          obtain ⟨-, hrec2⟩ := deposit_ok hd
                          have hbal2 : to2.balance =
                              (refAt (accounts.set i from2) j).balance +
                                amount := by rw [hrec2]
                          have h0j := balancesNonneg_refAt hinv2 hj2
                          simpa [LRes.accounts, hd] using
                            balancesNonneg_set (i := j) hinv2
                              (by rw [hbal2]; linarith)
  · cases hfa : findAccount accounts n with
    | none => rw [updateName_eq_notFound pin newName hfa]; exact hinv
    | some i =>
        obtain ⟨hi, -⟩ := findAccount_some accounts n i hfa
        cases hauth : authenticate (refAt accounts i) pin with
        | false => rw [updateName_eq_authFailed newName hfa hauth]; exact hinv
        | true =>
            rw [updateName_eq_found newName hfa hauth]
            cases hu : (refAt accounts i).updateName newName with
            | error e => simpa [LRes.accounts] using hinv
            | ok acc2 =>
                have hrec := updateName_ok hu
                have hbal : acc2.balance = (refAt accounts i).balance := by
                  rw [hrec]
                simpa [LRes.accounts] using
                  balancesNonneg_set (i := i) hinv
                    (by rw [hbal]; exact balancesNonneg_refAt hinv hi)
  · cases hfa : findAccount accounts n with
    | none => rw [closeAccount_eq_notFound pin hfa]; exact hinv
    | some i =>
        cases hauth : authenticate (refAt accounts i) pin with
        | false => rw [closeAccount_eq_authFailed hfa hauth]; exact hinv
        | true =>
            rw [closeAccount_eq_found hfa hauth]
            exact fun x hx => hinv x (List.mem_of_mem_eraseIdx hx)
  · intro result hres x hx
    exact hinv x (hres.1.subset hx)

/-- C2, witness: the amended preservation theorem applied to the concrete
two-account ledger of the spec scenario, for the withdraw and transfer
conjuncts. -/
theorem c2_nonneg_witness :
    balancesNonneg (withdraw
      [⟨"Alice", 1001, 100, hashPIN "1234"⟩, ⟨"Bob", 1002, 50, hashPIN "5678"⟩]
      1001 "1234" 30).accounts ∧
    balancesNonneg (transfer
      [⟨"Alice", 1001, 100, hashPIN "1234"⟩, ⟨"Bob", 1002, 50, hashPIN "5678"⟩]
      1001 1002 "1234" 30).accounts := by
  have hinv : balancesNonneg
      [⟨"Alice", 1001, 100, hashPIN "1234"⟩,
       ⟨"Bob", 1002, 50, hashPIN "5678"⟩] := by
    intro acc hacc
    simp only [List.mem_cons, List.not_mem_nil, or_false] at hacc
    rcases hacc with rfl | rfl <;> norm_num
  have h := c2_nonneg_amended
    [⟨"Alice", 1001, 100, hashPIN "1234"⟩, ⟨"Bob", 1002, 50, hashPIN "5678"⟩]
    "N" "M" "1234" 1001 1002 5 30 hinv
  exact ⟨h.2.2.1, h.2.2.2.1⟩

/-- C3, counterexample: `loadFromFile` never checks for duplicates, so a
file holding two records with the same account number loads both and the
ledger ends up with a duplicated account number. -/
theorem c3_unique_counterexample :
    loadFromFile true [some ⟨1, 5, 7, "A"⟩, some ⟨1, 6, 8, "B"⟩] [] =
      [⟨"A", 1, 5, 7⟩, ⟨"B", 1, 6, 8⟩] ∧
    ¬ numsUnique
      (loadFromFile true [some ⟨1, 5, 7, "A"⟩, some ⟨1, 6, 8, "B"⟩] []) := by
  have hload : loadFromFile true [some ⟨1, 5, 7, "A"⟩, some ⟨1, 6, 8, "B"⟩] []
      = [⟨"A", 1, 5, 7⟩, ⟨"B", 1, 6, 8⟩] := by
    simp [loadFromFile, readRecords, loadAccount]
  refine ⟨hload, ?_⟩
  rw [hload]
  simp [numsUnique]

/-- C3, amended: account-number uniqueness is preserved by every in-memory
operation — `addAccount` rejects duplicates, the mutating operations never
change an account number, `closeAccount` only removes, sorting only
reorders — but `loadFromFile` performs no uniqueness check, so a ledger
loaded from a file can violate it. -/
theorem c3_unique_amended (accounts : List BankAccount)
    (name newName pin : String) (n nb : Int) (balance amount : ℚ)
    (hinv : numsUnique accounts) :
    numsUnique (addAccount accounts name n balance pin).accounts ∧
    numsUnique (deposit accounts n pin amount).accounts ∧
    numsUnique (withdraw accounts n pin amount).accounts ∧
    numsUnique (transfer accounts n nb pin amount).accounts ∧
    numsUnique (updateName accounts n pin newName).accounts ∧
    numsUnique (closeAccount accounts n pin).accounts ∧
    (∀ result, sortAccountsByBalance accounts result →
      numsUnique result) := by
  refine ⟨?_, ?_, ?_, ?_, ?_, ?_, ?_⟩
  · by_cases hany : accounts.any (fun acc => acc.accountNum == n) = true
    · simpa [addAccount, hany, LRes.accounts] using hinv
    · have hfalse : accounts.any (fun acc => acc.accountNum == n) = false := by
        simpa using hany
      have hfresh : ∀ x ∈ accounts, ¬ x.accountNum = n := by
        intro x hx
        simpa using List.any_eq_false.mp hfalse x hx
      simp only [addAccount, if_neg hany, LRes.accounts, numsUnique,
        List.map_append, List.nodup_append]
      refine ⟨hinv, by simp, ?_⟩
      intro x hx hx'
      simp only [List.map_cons, List.map_nil, List.mem_singleton] at hx'
      obtain ⟨y, hy, rfl⟩ := List.mem_map.mp hx
      exact hfresh y hy (by simpa using hx')
  · cases hfa : findAccount accounts n with
    | none => rw [deposit_eq_notFound pin amount hfa]; exact hinv
    | some i =>
        cases hauth : authenticate (refAt accounts i) pin with
        | false => rw [deposit_eq_authFailed amount hfa hauth]; exact hinv
        | true =>
            rw [deposit_eq_found amount hfa hauth]
            cases hd : (refAt accounts i).deposit amount with
            | error e => simpa [LRes.accounts] using hinv
            | ok acc2 =>
                obtain ⟨-, hrec⟩ := deposit_ok hd
                have hnum : acc2.accountNum = (refAt accounts i).accountNum := by
                  rw [hrec]
                have hmap := map_accountNum_set accounts i acc2 hnum
                show numsUnique (accounts.set i acc2)
                simp only [numsUnique]
                rw [hmap]
                exact hinv
  · cases hfa : findAccount accounts n with
    | none => rw [withdraw_eq_notFound pin amount hfa]; exact hinv
    | some i =>
        cases hauth : authenticate (refAt accounts i) pin with
        | false => rw [withdraw_eq_authFailed amount hfa hauth]; exact hinv
        | true =>
            rw [withdraw_eq_found amount hfa hauth]
            cases hw : (refAt accounts i).withdraw amount with
            | error e => simpa [LRes.accounts] using hinv
            | ok acc2 =>
                obtain ⟨-, -, hrec⟩ := withdraw_ok hw
                have hnum : acc2.accountNum = (refAt accounts i).accountNum := by
                  rw [hrec]
                have hmap := map_accountNum_set accounts i acc2 hnum
                show numsUnique (accounts.set i acc2)
                simp only [numsUnique]
                rw [hmap]
                exact hinv
  · cases hfi : findAccount accounts n with
    | none => rw [transfer_eq_notFound pin amount (Or.inl hfi)]; exact hinv
    | some i =>
        cases hfj : findAccount accounts nb with
        | none => rw [transfer_eq_notFound pin amount (Or.inr hfj)]; exact hinv
        | some j =>
            by_cases heq : n = nb
            · subst heq
              rw [transfer_eq_same pin amount hfi]; exact hinv
            · cases hauth : authenticate (refAt accounts i) pin with
              | false =>
                  rw [transfer_eq_authFailed amount hfi hfj heq hauth]
                  exact hinv
              | true =>
                  rw [transfer_eq_found amount hfi hfj heq hauth]
                  cases hw : (refAt accounts i).withdraw amount with
                  | error e => simpa [LRes.accounts] using hinv
                  | ok from2 =>
                      obtain ⟨-, -, hrec1⟩ := withdraw_ok hw
                      have hnum1 : from2.accountNum =
                          (refAt accounts i).accountNum := by rw [hrec1]
                      have hmap1 := map_accountNum_set accounts i from2 hnum1
                      have hinv2 : numsUnique (accounts.set i from2) := by
                        simp only [numsUnique]
                        rw [hmap1]
                        exact hinv
                      cases hd : (refAt (accounts.set i from2) j).deposit
                          amount with
                      | error e => simpa [LRes.accounts, hd] using hinv2
                      | ok to2 =>
                          obtain ⟨-, hrec2⟩ := deposit_ok hd
                          have hnum2 : to2.accountNum =
                              (refAt (accounts.set i from2) j).accountNum := by
                            rw [hrec2]
                          have hmap2 := map_accountNum_set
                            (accounts.set i from2) j to2 hnum2
                          have hres : numsUnique
                              ((accounts.set i from2).set j to2) := by
                            simp only [numsUnique]
                            rw [hmap2]
                            simpa only [numsUnique] using hinv2
                          simpa [LRes.accounts, hd] using hres
  · cases hfa : findAccount accounts n with
    | none => rw [updateName_eq_notFound pin newName hfa]; exact hinv
    | some i =>
        cases hauth : authenticate (refAt accounts i) pin with
        | false => rw [updateName_eq_authFailed newName hfa hauth]; exact hinv
        | true =>
            rw [updateName_eq_found newName hfa hauth]
            cases hu : (refAt accounts i).updateName newName with
            | error e => simpa [LRes.accounts] using hinv
            | ok acc2 =>
                have hrec := updateName_ok hu
                have hnum : acc2.accountNum = (refAt accounts i).accountNum := by
                  rw [hrec]
                have hmap := map_accountNum_set accounts i acc2 hnum
                show numsUnique (accounts.set i acc2)
                simp only [numsUnique]
                rw [hmap]
                exact hinv
  · cases hfa : findAccount accounts n with
    | none => rw [closeAccount_eq_notFound pin hfa]; exact hinv
    | some i =>
        cases hauth : authenticate (refAt accounts i) pin with
        | false => rw [closeAccount_eq_authFailed hfa hauth]; exact hinv
        | true =>
            rw [closeAccount_eq_found hfa hauth]
            exact List.Nodup.sublist
              ((List.eraseIdx_sublist accounts i).map BankAccount.accountNum)
              hinv
  · intro result hres
    exact ((hres.1).map BankAccount.accountNum).nodup_iff.mpr hinv

/-- C3, witness: the amended preservation theorem applied to a concrete
two-account ledger with distinct numbers, for the addAccount and
closeAccount conjuncts. -/
theorem c3_unique_witness :
    numsUnique (addAccount
      [⟨"Alice", 1001, 100, hashPIN "1234"⟩, ⟨"Bob", 1002, 50, hashPIN "5678"⟩]
      "Carol" 1003 20 "4321").accounts ∧
    numsUnique (closeAccount
      [⟨"Alice", 1001, 100, hashPIN "1234"⟩, ⟨"Bob", 1002, 50, hashPIN "5678"⟩]
      1001 "1234").accounts := by
  have hinv : numsUnique
      [⟨"Alice", 1001, 100, hashPIN "1234"⟩,
       ⟨"Bob", 1002, 50, hashPIN "5678"⟩] := by
    simp [numsUnique]
  have h := c3_unique_amended
    [⟨"Alice", 1001, 100, hashPIN "1234"⟩, ⟨"Bob", 1002, 50, hashPIN "5678"⟩]
    "Carol" "M" "4321" 1003 1002 20 30 hinv
  have h2 := c3_unique_amended
    [⟨"Alice", 1001, 100, hashPIN "1234"⟩, ⟨"Bob", 1002, 50, hashPIN "5678"⟩]
    "Carol" "M" "1234" 1001 1002 20 30 hinv
  exact ⟨h.1, h2.2.2.2.2.2.1⟩

/-- C4: for an account with nonnegative balance `b` (the data-model range of
a balance), a withdrawal of more than `b` throws `InsufficientFunds` at the
account level and at the manager level, where the account vector comes back
unchanged; a withdrawal of `0 < amount ≤ b` succeeds and leaves exactly
`b - amount`, at both levels.  The account is located as the first match of
its number. -/
theorem c4_withdraw (l₁ l₂ : List BankAccount) (a : BankAccount) (n : Int)
    (pin : String) (amount : ℚ)
    (h₁ : ∀ x ∈ l₁, ¬ x.accountNum = n) (h₂ : a.accountNum = n)
    (hauth : authenticate a pin = true) (hb : 0 ≤ a.balance) :
    (a.balance < amount →
      a.withdraw amount = .error .insufficientBalance ∧
      withdraw (l₁ ++ a :: l₂) n pin amount =
        .thrown .insufficientBalance (l₁ ++ a :: l₂)) ∧
    (0 < amount → amount ≤ a.balance →
      a.withdraw amount = .ok { a with balance := a.balance - amount } ∧
      withdraw (l₁ ++ a :: l₂) n pin amount =
        .ok (l₁ ++ { a with balance := a.balance - amount } :: l₂)) := by
  have hfa := findAccount_append_first l₁ l₂ a n h₁ h₂
  have href := refAt_append_mid l₁ l₂ a
  have hauth' : authenticate (refAt (l₁ ++ a :: l₂) l₁.length) pin = true := by
    rw [href]; exact hauth
  constructor
  · intro hlt
    have hnp : ¬ amount ≤ 0 := by push_neg; linarith
    have hw : a.withdraw amount = .error .insufficientBalance := by
      simp [BankAccount.withdraw, hnp, hlt]
    refine ⟨hw, ?_⟩
    rw [withdraw_eq_found amount hfa hauth', href]
    simp [hw]
  · intro hpos hle
    have hw : a.withdraw amount = .ok { a with balance := a.balance - amount } :=
      withdraw_ok_of hpos hle
    refine ⟨hw, ?_⟩
    rw [withdraw_eq_found amount hfa hauth', href]
    simp [hw, set_append_mid]

/-- C4, witness: the spec's own scenario account Bob with balance 80 —
withdrawing 1000 throws `InsufficientFunds` and leaves the ledger intact,
withdrawing 30 leaves exactly 80 - 30. -/
theorem c4_withdraw_witness :
    withdraw [⟨"Bob", 1002, 80, hashPIN "5678"⟩] 1002 "5678" 1000 =
      .thrown .insufficientBalance [⟨"Bob", 1002, 80, hashPIN "5678"⟩] ∧
    withdraw [⟨"Bob", 1002, 80, hashPIN "5678"⟩] 1002 "5678" 30 =
      .ok [⟨"Bob", 1002, 80 - 30, hashPIN "5678"⟩] := by
  have h1 := c4_withdraw [] [] ⟨"Bob", 1002, 80, hashPIN "5678"⟩ 1002 "5678"
    1000 (by simp) rfl (by simp [authenticate, BankAccount.verifyPIN])
    (by norm_num)
  have h2 := c4_withdraw [] [] ⟨"Bob", 1002, 80, hashPIN "5678"⟩ 1002 "5678"
    30 (by simp) rfl (by simp [authenticate, BankAccount.verifyPIN])
    (by norm_num)
  constructor
  · simpa using (h1.1 (by norm_num)).2
  · simpa using (h2.2 (by norm_num) (by norm_num)).2

/-- C5, counterexample: the claim quantifies over every amount with
`amount ≤ balance(a)`; at `amount = -1` the PIN is correct and
`-1 ≤ 100 = balance(a)`, yet the transfer throws `InvalidAmount`
("Withdrawal must be positive") and both balances stay unchanged — the
source balance does not decrease by `-1` (which would mean becoming 101). -/
theorem c5_transfer_counterexample :
    authenticate ⟨"Alice", 1001, 100, hashPIN "1234"⟩ "1234" = true ∧
    (-1 : ℚ) ≤ (⟨"Alice", 1001, 100, hashPIN "1234"⟩ : BankAccount).balance ∧
    transfer
      [⟨"Alice", 1001, 100, hashPIN "1234"⟩, ⟨"Bob", 1002, 50, hashPIN "5678"⟩]
      1001 1002 "1234" (-1) =
      .thrown .withdrawalNotPositive
        [⟨"Alice", 1001, 100, hashPIN "1234"⟩,
         ⟨"Bob", 1002, 50, hashPIN "5678"⟩] ∧
    ¬ ((100 : ℚ) - (-1) = 100) := by
  have hfi : findAccount
      [⟨"Alice", 1001, 100, hashPIN "1234"⟩, ⟨"Bob", 1002, 50, hashPIN "5678"⟩]
      1001 = some 0 := by
    norm_num [findAccount]
  have hfj : findAccount
      [⟨"Alice", 1001, 100, hashPIN "1234"⟩, ⟨"Bob", 1002, 50, hashPIN "5678"⟩]
      1002 = some 1 := by
    norm_num [findAccount]
  have hauth : authenticate (refAt
      [⟨"Alice", 1001, 100, hashPIN "1234"⟩, ⟨"Bob", 1002, 50, hashPIN "5678"⟩]
      0) "1234" = true := by
    simp [refAt, authenticate, BankAccount.verifyPIN]
  refine ⟨by simp [authenticate, BankAccount.verifyPIN], by norm_num, ?_,
    by norm_num⟩
  rw [transfer_eq_found (-1) hfi hfj (by norm_num) hauth]
  have hw : (refAt
      [⟨"Alice", 1001, 100, hashPIN "1234"⟩, ⟨"Bob", 1002, 50, hashPIN "5678"⟩]
      0).withdraw (-1) = .error .withdrawalNotPositive := by
    norm_num [refAt, BankAccount.withdraw]
  simp [hw]

/-- C5, amended: for two distinct existing accounts and a positive amount
(the condition `0 < amount` the counterexample shows is needed), a transfer
with the source's correct PIN and `amount ≤ balance(source)` succeeds, the
source balance decreases by exactly `amount`, the destination balance
increases by exactly `amount`, and the sum of the two balances is
invariant. -/
theorem c5_transfer_amended (accounts : List BankAccount) (na nb : Int)
    (pin : String) (amount : ℚ) (i j : Nat)
    (hi : findAccount accounts na = some i)
    (hj : findAccount accounts nb = some j) (hne : ¬ na = nb)
    (hauth : authenticate (refAt accounts i) pin = true)
    (hpos : 0 < amount) (hle : amount ≤ (refAt accounts i).balance) :
    ∃ result : List BankAccount,
      transfer accounts na nb pin amount = .ok result ∧
      (refAt result i).balance = (refAt accounts i).balance - amount ∧
      (refAt result j).balance = (refAt accounts j).balance + amount ∧
      (refAt result i).balance + (refAt result j).balance =
        (refAt accounts i).balance + (refAt accounts j).balance := by
  obtain ⟨hilt, hinum⟩ := findAccount_some accounts na i hi
  obtain ⟨hjlt, hjnum⟩ := findAccount_some accounts nb j hj
  have hij : i ≠ j := fun h => hne (by rw [← hinum, ← hjnum, h])
  have hw := withdraw_ok_of hpos hle
  have hdep := deposit_ok_of_pos (refAt accounts j) amount hpos
  refine ⟨(accounts.set i
      { refAt accounts i with
        balance := (refAt accounts i).balance - amount }).set j
      { refAt accounts j with
        balance := (refAt accounts j).balance + amount }, ?_, ?_, ?_, ?_⟩
  · rw [transfer_eq_found amount hi hj hne hauth]
    simp only [hw]
    rw [refAt_set_ne _ hij]
    simp only [hdep]
  · rw [refAt_set_ne _ hij.symm, refAt_set_self _ hilt]
  · rw [refAt_set_self _ (by simpa using hjlt)]
  · rw [refAt_set_ne _ hij.symm, refAt_set_self _ hilt,
      refAt_set_self _ (by simpa using hjlt)]
    show (refAt accounts i).balance - amount +
      ((refAt accounts j).balance + amount) = _
    ring

/-- C5, witness for the amended theorem: the spec scenario — Alice 100, Bob
50, transfer of 30 with Alice's correct PIN — applied through the amended
theorem. -/
theorem c5_transfer_witness :
    ∃ result : List BankAccount,
      transfer
        [⟨"Alice", 1001, 100, hashPIN "1234"⟩,
         ⟨"Bob", 1002, 50, hashPIN "5678"⟩] 1001 1002 "1234" 30 =
        .ok result ∧
      (refAt result 0).balance = (refAt
        [⟨"Alice", 1001, 100, hashPIN "1234"⟩,
         ⟨"Bob", 1002, 50, hashPIN "5678"⟩] 0).balance - 30 ∧
      (refAt result 1).balance = (refAt
        [⟨"Alice", 1001, 100, hashPIN "1234"⟩,
         ⟨"Bob", 1002, 50, hashPIN "5678"⟩] 1).balance + 30 ∧
      (refAt result 0).balance + (refAt result 1).balance = (refAt
        [⟨"Alice", 1001, 100, hashPIN "1234"⟩,
         ⟨"Bob", 1002, 50, hashPIN "5678"⟩] 0).balance + (refAt
        [⟨"Alice", 1001, 100, hashPIN "1234"⟩,
         ⟨"Bob", 1002, 50, hashPIN "5678"⟩] 1).balance :=
  c5_transfer_amended
    [⟨"Alice", 1001, 100, hashPIN "1234"⟩, ⟨"Bob", 1002, 50, hashPIN "5678"⟩]
    1001 1002 "1234" 30 0 1 (by norm_num [findAccount])
    (by norm_num [findAccount]) (by norm_num)
    (by simp [refAt, authenticate, BankAccount.verifyPIN]) (by norm_num)
    (by norm_num [refAt])

/-- C10: on a ledger shaped `l₁ ++ a :: l₂` where `a` carries number `n` and
nothing in `l₁` does — so `a` is the first match in collection order, also
when `l₂` holds further accounts with the same number, as `loadFromFile` can
produce — `findAccount` returns `a`'s position, `closeAccount` removes
exactly `a`, and `deposit`, `withdraw`, `updateName` and the source side of
`transfer` act exactly on `a`. -/
theorem c10_first_match (l₁ l₂ : List BankAccount) (a : BankAccount) (n : Int)
    (pin newName : String) (amount : ℚ)
    (h₁ : ∀ x ∈ l₁, ¬ x.accountNum = n) (h₂ : a.accountNum = n)
    (hauth : authenticate a pin = true) :
    findAccount (l₁ ++ a :: l₂) n = some l₁.length ∧
    closeAccount (l₁ ++ a :: l₂) n pin = .ok (l₁ ++ l₂) ∧
    deposit (l₁ ++ a :: l₂) n pin amount =
      (match a.deposit amount with
       | .error e => .thrown e (l₁ ++ a :: l₂)
       | .ok acc2 => .ok (l₁ ++ acc2 :: l₂)) ∧
    withdraw (l₁ ++ a :: l₂) n pin amount =
      (match a.withdraw amount with
       | .error e => .thrown e (l₁ ++ a :: l₂)
       | .ok acc2 => .ok (l₁ ++ acc2 :: l₂)) ∧
    updateName (l₁ ++ a :: l₂) n pin newName =
      (match a.updateName newName with
       | .error e => .thrown e (l₁ ++ a :: l₂)
       | .ok acc2 => .ok (l₁ ++ acc2 :: l₂)) ∧
    ∀ toAcc : Int, ¬ toAcc = n →
      transfer (l₁ ++ a :: l₂) n toAcc pin amount =
        (match findAccount (l₁ ++ a :: l₂) toAcc with
         | none => .thrown .transferAccountNotFound (l₁ ++ a :: l₂)
         | some j =>
             match a.withdraw amount with
             | .error e => .thrown e (l₁ ++ a :: l₂)
             | .ok from2 =>
                 match (refAt (l₁ ++ from2 :: l₂) j).deposit amount with
                 | .error e => .thrown e (l₁ ++ from2 :: l₂)
                 | .ok to2 => .ok ((l₁ ++ from2 :: l₂).set j to2)) := by
  have hfa := findAccount_append_first l₁ l₂ a n h₁ h₂
  have href := refAt_append_mid l₁ l₂ a
  have hauth' : authenticate (refAt (l₁ ++ a :: l₂) l₁.length) pin = true := by
    rw [href]; exact hauth
  refine ⟨hfa, ?_, ?_, ?_, ?_, ?_⟩
  · rw [closeAccount_eq_found hfa hauth', eraseIdx_append_mid]
  · rw [deposit_eq_found amount hfa hauth', href]
    cases hd : a.deposit amount with
    | error e => simp [hd]
    | ok acc2 => simp [hd, set_append_mid]
  · rw [withdraw_eq_found amount hfa hauth', href]
    cases hw : a.withdraw amount with
    | error e => simp [hw]
    | ok acc2 => simp [hw, set_append_mid]
  · rw [updateName_eq_found newName hfa hauth', href]
    cases hu : a.updateName newName with
    | error e => simp [hu]
    | ok acc2 => simp [hu, set_append_mid]
  · intro toAcc hneq
    have hne : ¬ n = toAcc := fun h => hneq h.symm
    cases hft : findAccount (l₁ ++ a :: l₂) toAcc with
    | none =>
        rw [transfer_eq_notFound pin amount (Or.inr hft)]
    | some j =>
        rw [transfer_eq_found amount hfa hft hne hauth', href]
        cases hw : a.withdraw amount with
        | error e => simp [hw]
        | ok from2 => simp [hw, set_append_mid]

/-- C10, witness: a ledger where account number 1 occurs twice (as after a
duplicate-laden `loadFromFile`): `findAccount 1` picks the earlier one, at
index 1, and `closeAccount` removes only it, keeping the later duplicate. -/
theorem c10_first_match_witness :
    findAccount [⟨"Zed", 2, 20, hashPIN "0000"⟩, ⟨"X", 1, 5, hashPIN "1234"⟩,
      ⟨"Y", 1, 9, hashPIN "5678"⟩] 1 = some 1 ∧
    closeAccount [⟨"Zed", 2, 20, hashPIN "0000"⟩, ⟨"X", 1, 5, hashPIN "1234"⟩,
      ⟨"Y", 1, 9, hashPIN "5678"⟩] 1 "1234" =
      .ok [⟨"Zed", 2, 20, hashPIN "0000"⟩, ⟨"Y", 1, 9, hashPIN "5678"⟩] := by
  have h := c10_first_match [⟨"Zed", 2, 20, hashPIN "0000"⟩]
    [⟨"Y", 1, 9, hashPIN "5678"⟩] ⟨"X", 1, 5, hashPIN "1234"⟩ 1 "1234" "W" 3
    (by intro x hx; simp only [List.mem_singleton] at hx; subst hx; decide)
    rfl (by simp [authenticate, BankAccount.verifyPIN])
  exact ⟨by simpa using h.1, by simpa using h.2.1⟩

/-- C6, counterexample: the source sorts with `std::ranges::sort`, whose
contract (`sortAccountsByBalance`) allows any sorted permutation and says
nothing about the relative order of equal keys; for two distinct accounts of
equal balance the swapped output satisfies the sort's contract but is not a
stable reordering, so stability is not a property of this code. -/
theorem c6_sort_counterexample :
    sortAccountsByBalance [⟨"A", 1, 5, 7⟩, ⟨"B", 2, 5, 8⟩]
      [⟨"B", 2, 5, 8⟩, ⟨"A", 1, 5, 7⟩] ∧
    ¬ stableReorder [⟨"A", 1, 5, 7⟩, ⟨"B", 2, 5, 8⟩]
      [⟨"B", 2, 5, 8⟩, ⟨"A", 1, 5, 7⟩] := by
  refine ⟨⟨List.Perm.swap _ _ _, ?_⟩, ?_⟩
  · simp [List.pairwise_cons]
  · intro h
    have h5 := h 5
    simp [List.filter_cons, BankAccount.mk.injEq] at h5

/-- C6, amended: every output admitted by the sort's contract is
non-decreasing in balance and is a permutation of the input (same length,
same element counts); the stability the claim adds on top of that is not
guaranteed (an unstable output is equally admissible — see the
counterexample). -/
theorem c6_sort_amended (accounts result : List BankAccount)
    (h : sortAccountsByBalance accounts result) :
    (result.map BankAccount.balance).Sorted (· ≤ ·) ∧
    result.Perm accounts ∧
    result.length = accounts.length ∧
    ∀ acc : BankAccount, result.count acc = accounts.count acc := by
  obtain ⟨hperm, hsorted⟩ := h
  exact ⟨(List.pairwise_map).mpr hsorted, hperm, hperm.length_eq,
    fun acc => hperm.count_eq acc⟩

/-- C6, witness: the amended theorem applied to a concrete admissible
sort output (two accounts of distinct balances, swapped into order). -/
theorem c6_sort_witness :
    (([⟨"A", 1, 3, 7⟩, ⟨"B", 2, 9, 8⟩] : List BankAccount).map
      BankAccount.balance).Sorted (· ≤ ·) ∧
    ([⟨"A", 1, 3, 7⟩, ⟨"B", 2, 9, 8⟩] : List BankAccount).Perm
      [⟨"B", 2, 9, 8⟩, ⟨"A", 1, 3, 7⟩] ∧
    ([⟨"A", 1, 3, 7⟩, ⟨"B", 2, 9, 8⟩] : List BankAccount).length =
      ([⟨"B", 2, 9, 8⟩, ⟨"A", 1, 3, 7⟩] : List BankAccount).length ∧
    ∀ acc : BankAccount,
      ([⟨"A", 1, 3, 7⟩, ⟨"B", 2, 9, 8⟩] : List BankAccount).count acc =
        ([⟨"B", 2, 9, 8⟩, ⟨"A", 1, 3, 7⟩] : List BankAccount).count acc :=
  c6_sort_amended [⟨"B", 2, 9, 8⟩, ⟨"A", 1, 3, 7⟩]
    [⟨"A", 1, 3, 7⟩, ⟨"B", 2, 9, 8⟩]
    ⟨List.Perm.swap _ _ _, by norm_num [List.pairwise_cons]⟩

lemma readRecords_save (accounts : List BankAccount) :
    readRecords ((saveToFile accounts).map some) =
      accounts.map
        (fun acc => { acc with balance := fmtBalance acc.balance }) := by
  induction accounts with
  | nil => rfl
  | cons a rest ih =>
      show loadAccount (saveAccount a) ::
        readRecords ((saveToFile rest).map some) = _
      rw [ih]
      rfl

/-- C1, counterexample: `save` prints the balance with the default ostream
precision of 6 significant digits, so an account with balance 1234567.89
comes back from the round trip with balance 1234570 — the loaded sequence is
not identical to the saved one. -/
theorem c1_roundtrip_counterexample :
    loadFromFile true
      ((saveToFile [⟨"Alice", 1001, 123456789 / 100, 7⟩]).map some) [] ≠
      [⟨"Alice", 1001, 123456789 / 100, 7⟩] := by
  have he : qlog10 (123456789 / 100 : ℚ) = (6 : Int) := by
    have := qlog10_eq_ofNat (123456789 / 100 : ℚ) 6 (by norm_num)
      (by norm_num) (by norm_num)
    simpa using this
  have hp1 : pow10 (5 - (6 : Int)) = (1 / 10 : ℚ) := by
    rw [show (5 - (6 : Int)) = -((1 : Nat) : Int) by norm_num, pow10_negOfNat]
    norm_num
  have hm : round ((123456789 / 100 : ℚ) * pow10 (5 - 6)) = (123457 : ℤ) := by
    rw [hp1]
    exact round_eq_of (by norm_num) (by norm_num)
  have hfmt : fmtBalance (123456789 / 100 : ℚ) = 1234570 := by
    rw [fmtBalance_of_pos 6 123457 (by norm_num) he hm,
      show ((6 : Int) - 5) = ((1 : Nat) : Int) by norm_num, pow10_ofNat]
    norm_num
  intro h
  simp only [saveToFile, List.map_cons, List.map_nil, saveAccount] at h
  simp only [loadFromFile, if_true, readRecords, loadAccount, hfmt] at h
  simp only [List.cons.injEq, BankAccount.mk.injEq] at h
  norm_num at h

/-- C1, amended: for any (in particular any non-empty) ledger, saving and
then loading into a fresh ledger reproduces every account in order with the
same name, account number and pinDigest, and with the balance replaced by
its 6-significant-decimal-digit rounding `fmtBalance` (hence exactly the
original balance whenever it has at most 6 significant digits, as in all the
spec's example amounts). -/
theorem c1_roundtrip_amended (accounts : List BankAccount)
    (_hne : accounts ≠ []) :
    loadFromFile true ((saveToFile accounts).map some) [] =
      accounts.map
        (fun acc => { acc with balance := fmtBalance acc.balance }) := by
  show readRecords ((saveToFile accounts).map some) = _
  exact readRecords_save accounts

/-- C1, witness: a one-account ledger with the 3-significant-digit balance
100 round-trips to exactly itself. -/
theorem c1_roundtrip_witness :
    loadFromFile true ((saveToFile [⟨"Alice", 1001, 100, 7⟩]).map some) [] =
      [⟨"Alice", 1001, (100 : ℚ), 7⟩] := by
  have he : qlog10 (100 : ℚ) = (2 : Int) := by
    have := qlog10_eq_ofNat (100 : ℚ) 2 (by norm_num) (by norm_num)
      (by norm_num)
    simpa using this
  have hp1 : pow10 (5 - (2 : Int)) = (1000 : ℚ) := by
    rw [show (5 - (2 : Int)) = ((3 : Nat) : Int) by norm_num, pow10_ofNat]
    norm_num
  have hm : round ((100 : ℚ) * pow10 (5 - 2)) = (100000 : ℤ) := by
    rw [hp1]
    exact round_eq_of (by norm_num) (by norm_num)
  have hfmt : fmtBalance (100 : ℚ) = 100 := by
    rw [fmtBalance_of_pos 2 100000 (by norm_num) he hm,
      show ((2 : Int) - 5) = -((3 : Nat) : Int) by norm_num, pow10_negOfNat]
    norm_num
  have h := c1_roundtrip_amended [⟨"Alice", 1001, 100, 7⟩] (by simp)
  rw [h]
  simp [hfmt]

end Bank
